import Mathlib

/-
  Verification of the message normalization and time-series alignment
  pipeline of casa_do_panico (src/cdp_web/magic.js).

  The JavaScript source is shallowly embedded: messages, flat records and
  the chart state become Lean structures; the JS object used as a keyed
  map becomes an association list with insertion-order keys; `Date`
  values become milliseconds-since-epoch integers (or an invalid marker),
  together with a model of the JS `Date` string rendering and of the
  ISO-8601 parsing done by `new Date(string)` (UTC environment assumed,
  as the page carries no timezone handling of its own).
-/

set_option maxHeartbeats 1000000
set_option linter.unusedVariables false

namespace CDP

/-- A JavaScript value as it occurs in the sensor payloads: `undefined`,
a string, or an integral number. The source never computes with payload
values, so integers suffice for the numeric case. -/
inductive JVal where
  | undef : JVal
  | vstr : String → JVal
  | vnum : Int → JVal
  deriving DecidableEq, Repr

/-- Result of `new Date(s)`: a valid instant (milliseconds since the Unix
epoch, UTC) or an invalid date (NaN time value). -/
inductive JDate where
  | invalid : JDate
  | valid : Int → JDate
  deriving DecidableEq, Repr

/-! ### Character and string helpers (kernel-evaluable) -/

/-- ASCII digit test, as used by the modelled ISO-8601 parser. -/
def isDig (c : Char) : Bool := 48 ≤ c.toNat && c.toNat ≤ 57

/-- Accumulating decimal value of a digit list; `none` on a non-digit. -/
def digitsVal : List Char → Nat → Option Nat
  | [], acc => some acc
  | c :: rest, acc =>
    if isDig c then digitsVal rest (acc * 10 + (c.toNat - 48)) else none

/-- Parse a non-empty all-digit character list as a natural number. -/
def parseNatAll (cs : List Char) : Option Nat :=
  match cs with
  | [] => none
  | _ => digitsVal cs 0

/-- Parse a digit list of exactly the given length. -/
def parseNatLen (cs : List Char) (len : Nat) : Option Nat :=
  if cs.length = len then parseNatAll cs else none

/-- Split a character list on a separator character (model of
`String.prototype.split` restricted to single-character separators). -/
def splitOnChar (c : Char) : List Char → List (List Char)
  | [] => [[]]
  | a :: rest =>
    let r := splitOnChar c rest
    if a == c then [] :: r
    else
      match r with
      | [] => [[a]]
      | h :: t => (a :: h) :: t

/-- ASCII lower-casing of one character (model of the effect of
`String.prototype.toLowerCase` on the ASCII topic names this app uses). -/
def chToLower (c : Char) : Char :=
  if 65 ≤ c.toNat && c.toNat ≤ 90 then Char.ofNat (c.toNat + 32) else c

/-- Model of `String.prototype.toLowerCase` (ASCII range). -/
def jsToLower (s : String) : String := ⟨s.toList.map chToLower⟩

/-- JS-style lexicographic comparison of character lists by code unit:
true when the first list is less than or equal to the second. All strings
the program compares are ASCII, where code units and code points agree. -/
def chListLe : List Char → List Char → Bool
  | [], _ => true
  | _ :: _, [] => false
  | a :: as, b :: bs =>
    if a.toNat < b.toNat then true
    else if b.toNat < a.toNat then false
    else chListLe as bs

/-- Model of the string comparison performed by the default
`Array.prototype.sort` comparator: `a ≤ b` on string renderings. -/
def strLe (a b : String) : Bool := chListLe a.toList b.toList

/-! ### Calendar arithmetic (model of the UTC `Date` internals) -/

/-- Days in a month of the proleptic Gregorian calendar. -/
def daysInMonth (y m : Nat) : Nat :=
  if m = 2 then (if y % 4 = 0 && (y % 100 != 0 || y % 400 = 0) then 29 else 28)
  else if m = 4 || m = 6 || m = 9 || m = 11 then 30 else 31

/-- Days since 1970-01-01 of a Gregorian date (civil-to-days conversion). -/
def daysFromCivil (y : Int) (m d : Nat) : Int :=
  let y2 : Int := if m ≤ 2 then y - 1 else y
  let era : Int := y2.fdiv 400
  let yoe : Nat := (y2 - era * 400).toNat
  let mp : Nat := if m > 2 then m - 3 else m + 9
  let doy : Nat := (153 * mp + 2) / 5 + d - 1
  let doe : Nat := yoe * 365 + yoe / 4 - yoe / 100 + doy
  era * 146097 + (doe : Int) - 719468

/-- Gregorian date of a day count since 1970-01-01 (days-to-civil). -/
def civilFromDays (z : Int) : Int × Nat × Nat :=
  let z2 : Int := z + 719468
  let era : Int := z2.fdiv 146097
  let doe : Nat := (z2 - era * 146097).toNat
  let yoe : Nat := (doe - doe / 1460 + doe / 36524 - doe / 146096) / 365
  let doy : Nat := doe - (365 * yoe + yoe / 4 - yoe / 100)
  let mp : Nat := (5 * doy + 2) / 153
  let d : Nat := doy - (153 * mp + 2) / 5 + 1
  let m : Nat := if mp < 10 then mp + 3 else mp - 9
  ((yoe : Int) + era * 400 + (if m ≤ 2 then 1 else 0), m, d)

def dayNames : List String := ["Sun", "Mon", "Tue", "Wed", "Thu", "Fri", "Sat"]

def monthNames : List String :=
  ["Jan", "Feb", "Mar", "Apr", "May", "Jun",
   "Jul", "Aug", "Sep", "Oct", "Nov", "Dec"]

/-- Two-digit zero-padded decimal rendering. -/
def pad2 (n : Nat) : String := if n < 10 then "0" ++ toString n else toString n

/-- Model of `Date.prototype.toString` in a UTC environment. Milliseconds
are not rendered: two instants in the same second produce the same string. -/
def jdateToString : JDate → String
  | .invalid => "Invalid Date"
  | .valid ms =>
    let day : Int := ms.fdiv 86400000
    let msod : Nat := (ms - day * 86400000).toNat
    let c := civilFromDays day
    let w : Nat := ((day + 4).emod 7).toNat
    dayNames.getD w "" ++ " " ++ monthNames.getD (c.2.1 - 1) "" ++ " " ++
      pad2 c.2.2 ++ " " ++ toString c.1 ++ " " ++
      pad2 (msod / 3600000) ++ ":" ++ pad2 (msod / 60000 % 60) ++ ":" ++
      pad2 (msod / 1000 % 60) ++ " GMT+0000 (Coordinated Universal Time)"

/-! ### Model of `new Date(string)` on ISO-8601 inputs -/

/-- Drop a trailing `Z` timezone designator if present. -/
def stripZ (cs : List Char) : List Char :=
  match cs.getLast? with
  | some 'Z' => cs.dropLast
  | _ => cs

/-- Fractional-second digits (1 to 3) scaled to milliseconds. -/
def parseFrac (cs : List Char) : Option Nat :=
  if 1 ≤ cs.length && cs.length ≤ 3 then
    (parseNatAll cs).map (fun n => n * 10 ^ (3 - cs.length))
  else none

/-- Combine hour, minute, second digit groups and a millisecond count into
milliseconds within the day, validating ranges as the ISO parser does. -/
def hmsToMs (hs ms sec : List Char) (frac : Nat) : Option Nat :=
  match parseNatLen hs 2, parseNatLen ms 2, parseNatLen sec 2 with
  | some h, some mi, some se =>
    if h ≤ 23 && mi ≤ 59 && se ≤ 59 then
      some (h * 3600000 + mi * 60000 + se * 1000 + frac)
    else none
  | _, _, _ => none

/-- Parse the time component `HH:MM:SS` with optional `.f`..`.fff` and
optional trailing `Z`. -/
def parseTime (cs : List Char) : Option Nat :=
  match splitOnChar ':' (stripZ cs) with
  | [hs, ms, ss] =>
    match splitOnChar '.' ss with
    | [sec] => hmsToMs hs ms sec 0
    | [sec, fr] =>
      match parseFrac fr with
      | some f => hmsToMs hs ms sec f
      | none => none
    | _ => none
  | _ => none

/-- Parse the date component `YYYY-MM-DD`, validating calendar ranges. -/
def parseDatePart (cs : List Char) : Option (Nat × Nat × Nat) :=
  match splitOnChar '-' cs with
  | [ys, ms, ds] =>
    match parseNatLen ys 4, parseNatLen ms 2, parseNatLen ds 2 with
    | some y, some mo, some d =>
      if 1 ≤ mo && mo ≤ 12 && 1 ≤ d && d ≤ daysInMonth y mo then
        some (y, mo, d)
      else none
    | _, _, _ => none
  | _ => none

/-- Model of `new Date(s)` on the ISO-8601 date and date-time strings this
application receives (UTC environment). Strings outside this grammar are
treated as unparsable and yield an invalid date, as the claims only
exercise ISO strings and clearly invalid strings. -/
def jsParseDate (s : String) : JDate :=
  match splitOnChar 'T' s.toList with
  | [d] =>
    match parseDatePart d with
    | some (y, mo, dd) => .valid (daysFromCivil (y : Int) mo dd * 86400000)
    | none => .invalid
  | [d, t] =>
    match parseDatePart d, parseTime t with
    | some (y, mo, dd), some ms =>
      .valid (daysFromCivil (y : Int) mo dd * 86400000 + (ms : Int))
    | _, _ => .invalid
  | _ => .invalid

/-! ### Data model (from the source)

A raw message, as consumed by `magic.js`: `broker_id`, `constructed_when`,
`payload.SensorData` (a mapping from topic name to a reading object whose
keys are `sensor_id` plus metric fields), and the `flat` annotation that
`simpleflat` attaches. `payload` itself is assumed present — every code
path relevant to the claims reads `msg.payload.SensorData` where only the
`SensorData` key may be absent (`none`). A reading object is an
association list of keys to values, in JS insertion order; topic keys are
sensor topic names, never array-index strings, so insertion order is
for-in order for them. -/

/-- The flat record `simpleflat` attaches: each field is `undefined` until
assigned, which the `Option`/`JVal.undef` encodings capture. -/
structure Flat where
  topic : Option String
  sensor_id : JVal
  value : JVal
  when : Option JDate
  deriving DecidableEq, Repr

/-- The flat object `let flat = {}` starts as: no field assigned. -/
def emptyFlat : Flat := ⟨none, .undef, .undef, none⟩

/-- A raw message. `flat = none` models a message that `simpleflat` has
not annotated yet (reading `msg.flat` then yields `undefined`). -/
structure Msg where
  broker_id : String
  constructed_when : String
  payload_SensorData : Option (List (String × List (String × JVal)))
  flat : Option Flat
  deriving DecidableEq, Repr

/-- One Chart.js dataset as `rechart` builds it. `data` entries are the
values of `bytime[time]`: a stored reading value, or `undefined`
(`JVal.undef`) as the missing-value marker when the key is absent. -/
structure Dataset where
  label : String
  data : List JVal
  borderColor : String
  deriving DecidableEq, Repr

/-- The chart-facing output of one `rechart` call: the `labels` array it
computes and the datasets it stores into `chart.data.datasets`. -/
structure Series where
  labels : List (Option JDate)
  datasets : List Dataset
  deriving DecidableEq, Repr

/-- Observable state after a `rechart` call: the chart contents, the
global color cursor `icor`, and the message array (which the source only
reads — it writes no message field and no flat-record field). -/
structure RechartResult where
  series : Series
  icorAfter : Nat
  msgsAfter : List Msg
  deriving DecidableEq, Repr

/-! ### JS objects as insertion-ordered association lists -/

/-- Keys of a JS-object model, in insertion order. -/
def keys {α : Type} (o : List (String × α)) : List String := o.map Prod.fst

/-- Property read `o[k]`: the first entry with the key, if any. -/
def objGet? {α : Type} (o : List (String × α)) (k : String) : Option α :=
  (o.find? (fun p => p.1 == k)).map Prod.snd

/-- Bucket read used on `per_broker` and `flats_per_sensor`: the stored
list for the key, or `[]` when absent. -/
def bkt {α : Type} (o : List (String × List α)) (k : String) : List α :=
  (objGet? o k).getD []

/-- Property write `o[k] = v`: update in place (keeping key position) when
the key exists, else append a new entry — JS object key order semantics. -/
def objSet {α : Type} (o : List (String × α)) (k : String) (v : α) :
    List (String × α) :=
  if o.any (fun p => p.1 == k) then
    o.map (fun p => if p.1 == k then (p.1, v) else p)
  else o ++ [(k, v)]

/-- The `if (!o.hasOwnProperty(k)) o[k] = []; o[k].push(x);` idiom used
for `per_broker` and `flats_per_sensor`. -/
def objPush {α : Type} (o : List (String × List α)) (k : String) (x : α) :
    List (String × List α) :=
  if o.any (fun p => p.1 == k) then
    o.map (fun p => if p.1 == k then (p.1, p.2 ++ [x]) else p)
  else o ++ [(k, [x])]

/-- Folding `objPush` over a list of items, keyed by a function — the
shape shared by the broker index rebuild and the per-sensor grouping. -/
def objPushAll {α : Type} (key : α → String) (l : List α)
    (o : List (String × List α)) : List (String × List α) :=
  l.foldl (fun acc x => objPush acc (key x) x) o

/-- Total sum of bucket sizes. -/
def sumB {α : Type} (o : List (String × List α)) : Nat :=
  (o.map (fun p => p.2.length)).sum

/-! ### Stable sort (model of `Array.prototype.sort`)

ES2019 requires `Array.prototype.sort` to be stable; with the default
comparator it orders by string rendering. Any stable sort with respect to
a total preorder produces the same list, so an insertion sort that keeps
equal elements in encounter order is a faithful model. -/

/-- Insert after all elements less than or equal — stability. -/
def insSorted {α : Type} (le : α → α → Bool) (x : α) : List α → List α
  | [] => [x]
  | y :: ys => if le y x then y :: insSorted le x ys else x :: y :: ys

/-- Stable sort by the given boolean comparison. -/
def jsort {α : Type} (le : α → α → Bool) (l : List α) : List α :=
  l.foldl (fun acc x => insSorted le x acc) []

/-- String key under which a JS value is stored when used as an object
property key: `String(v)`. -/
def jvalKey : JVal → String
  | .undef => "undefined"
  | .vstr s => s
  | .vnum n => toString n

/-- String key of a `flat.when` value when used as an object property key
or compared by the default sort: `String(undefined)` is "undefined",
`String(aDate)` is the date rendering. -/
def whenKey : Option JDate → String
  | none => "undefined"
  | some d => jdateToString d

/-- `labels.sort()`: default comparator, i.e. stable sort by the string
rendering of each (Date) element. -/
def sortLabels (l : List (Option JDate)) : List (Option JDate) :=
  jsort (fun a b => strLe (whenKey a) (whenKey b)) l

/-- Is the string a canonical array-index property key? Such keys are
enumerated first, in ascending numeric order, by JS `for ... in`. -/
def isIdxKey (s : String) : Bool :=
  match parseNatAll s.toList with
  | some n => (toString n == s) && n < 4294967295
  | none => false

/-- Property keys in JS `for ... in` enumeration order: array-index keys
ascending numerically, then the remaining keys in insertion order. -/
def forInKeys (ks : List String) : List String :=
  jsort (fun a b => Nat.ble ((parseNatAll a.toList).getD 0)
      ((parseNatAll b.toList).getD 0))
    (ks.filter isIdxKey) ++ ks.filter (fun k => !isIdxKey k)

/-! ### Source translation: magic.js -/

/-- The fixed palette (magic.js line 13). -/
def colors : List String :=
  ["red", "green", "orange", "blue", "purple", "cyan", "magenta", "lime",
   "darkgreen"]

/-- `function color()` (magic.js line 19): reads the palette at the cursor
and increments the cursor. The global `icor` is passed explicitly. -/
def color (icor : Nat) : String × Nat :=
  (colors.getD (icor % colors.length) "", icor + 1)

/-- One iteration of the `for (let kn in sd)` loop of `simpleflat`
(magic.js lines 78 to 87): overwrite `topic`, `sensor_id`, `value` (from
the last non-sensor_id key of the reading; an absent key read yields
`undefined`) and `when` on the flat object built so far. -/
def flatStep (whenv : JDate) (fl : Flat) (e : String × List (String × JVal)) :
    Flat :=
  { topic := some (jsToLower e.1),
    sensor_id := (objGet? e.2 "sensor_id").getD .undef,
    value := e.2.foldl (fun v p => if p.1 == "sensor_id" then v else p.2)
      fl.value,
    when := some whenv }

/-- `function simpleflat(msg)` (magic.js lines 74 to 89): iterate the
`SensorData` mapping (`for ... in` over `undefined` or an empty object
iterates zero times), then unconditionally attach the flat object. -/
def simpleflat (m : Msg) : Msg :=
  let sd := m.payload_SensorData.getD []
  let fl := sd.foldl (flatStep (jsParseDate m.constructed_when)) emptyFlat
  { m with flat := some fl }

/-- The index rebuild inside `fetch_the_goods` (magic.js lines 36 to 45):
discard the previous `per_broker`, then for each message flatten it and
push it onto the bucket of its `broker_id`. -/
def fetch_the_goods (json : List Msg) : List (String × List Msg) :=
  json.foldl
    (fun pb m0 =>
      let m := simpleflat m0
      objPush pb m.broker_id m)
    []

/-- The scan loop of `rechart` (magic.js lines 96 to 108), walking the
message array from its last index downward while fewer than `lastn`
qualifying records have been consumed. A message whose `flat` property is
absent makes `flat["topic"]` throw, modelled by the error result. The
counter argument is `lastn - added`. -/
def consume (t : String) :
    Nat → List Msg → List (String × List Flat) → List (Option JDate) →
    Except String (List (String × List Flat) × List (Option JDate))
  | 0, _, fps, labels => .ok (fps, labels)
  | _ + 1, [], fps, labels => .ok (fps, labels)
  | n + 1, m :: rest, fps, labels =>
    match m.flat with
    | none => .error "TypeError: cannot read properties of undefined"
    | some fl =>
      if fl.topic == some t then
        consume t n rest (objPush fps (jvalKey fl.sensor_id) fl)
          (labels ++ [fl.when])
      else
        consume t (n + 1) rest fps labels

/-- The per-sensor dataset of the `for (let sensor_id in flats_per_sensor)`
body (magic.js lines 112 to 129): reverse the group back to positional
order, index values by the string rendering of their timestamp (last
write wins), then align one value per label by string-keyed lookup, with
`undefined` for absent keys. `ic` is the color cursor at this iteration.
The `bytime` object (magic.js lines 121 to 124) is built by `bytimeOf`:
each group member stores its value under the string rendering of its
timestamp, later writes overwriting earlier ones. -/
def bytimeOf (flats : List Flat) : List (String × JVal) :=
  flats.foldl (fun bt sf => objSet bt (whenKey sf.when) sf.value) []

def mkDataset (fps : List (String × List Flat)) (labels : List (Option JDate))
    (ic : Nat) (k : String) : Dataset :=
  let flats := (bkt fps k).reverse
  let bytime := bytimeOf flats
  { label := "Sensor #" ++ k,
    data := labels.map (fun time => (objGet? bytime (whenKey time)).getD .undef),
    borderColor := (color ic).1 }

/-- The dataset loop of `rechart`: fold over the sensor keys in `for-in`
order, appending one dataset per key and advancing the color cursor. -/
def buildDatasets (fps : List (String × List Flat))
    (labels : List (Option JDate)) (ic0 : Nat) : List Dataset × Nat :=
  (forInKeys (keys fps)).foldl
    (fun acc k => (acc.1 ++ [mkDataset fps labels acc.2 k], acc.2 + 1))
    ([], ic0)

/-- `function rechart(msgarr, lastn, topic, chart)` (magic.js lines 92 to
132): scan backwards collecting qualifying flats and their timestamps,
sort the labels with the default (string) comparator, reset the color
cursor (`icor = 0`), then build one dataset per sensor key. `icor0` is
the global cursor before the call; it is overwritten before being read.
The source writes no message field and no flat-record field, so the
observable message array after the call is the input. -/
def rechart (msgarr : List Msg) (lastn : Nat) (topic : String) (icor0 : Nat) :
    Except String RechartResult :=
  match consume topic lastn msgarr.reverse [] [] with
  | .error e => .error e
  | .ok (fps, labels0) =>
    let labels := sortLabels labels0
    let ds := buildDatasets fps labels 0
    .ok ⟨⟨labels, ds.1⟩, ds.2, msgarr⟩

/-- `function u(was_auto)` (magic.js lines 135 to 141): read the selected
broker, limit and topic (modelled as parameters), look the broker up in
`per_broker` with `|| []` fallback, and call `rechart`. -/
def u (pb : List (String × List Msg)) (broker : String) (lastn : Nat)
    (topic : String) (icor0 : Nat) : Except String RechartResult :=
  rechart ((objGet? pb broker).getD []) lastn topic icor0

/-! ### Characterization definitions (used to state the claims) -/

/-- Reading `msg.flat` the way `rechart` does once it is known present. -/
def flatOf (m : Msg) : Flat := m.flat.getD emptyFlat

/-- The topic-match filter of `rechart`: `flat["topic"] == topic`. An
absent topic (undefined) never equals the requested topic string. -/
def qualB (f : Flat) (t : String) : Bool := f.topic == some t

/-- All messages of the list carry a flat annotation. This is true of
every list `rechart` receives in the running system, because
`fetch_the_goods` flattens each message before indexing it. -/
def allFlat (msgs : List Msg) : Prop := ∀ m ∈ msgs, m.flat.isSome

instance (msgs : List Msg) : Decidable (allFlat msgs) := by
  unfold allFlat
  infer_instance

/-- The records the scan loop consumes, in scan order: the first `n`
qualifying flats of the reversed message list. -/
def consumedRev (t : String) (rev : List Msg) (n : Nat) : List Flat :=
  ((rev.map flatOf).filter (fun f => qualB f t)).take n

/-- Consumed records of a `rechart msgs n t` call, in scan order
(positionally newest first). -/
def consumedOf (msgs : List Msg) (n : Nat) (t : String) : List Flat :=
  consumedRev t msgs.reverse n

/-- The per-sensor grouping the scan loop builds. -/
def fpsOf (msgs : List Msg) (n : Nat) (t : String) :
    List (String × List Flat) :=
  objPushAll (fun f => jvalKey f.sensor_id) (consumedOf msgs n t) []

/-- The label axis a successful `rechart msgs n t` call produces. -/
def labelsOf (msgs : List Msg) (n : Nat) (t : String) : List (Option JDate) :=
  sortLabels ((consumedOf msgs n t).map (fun f => f.when))

/-- Sensor keys in dataset-iteration order. -/
def keysOf (msgs : List Msg) (n : Nat) (t : String) : List String :=
  forInKeys (keys (fpsOf msgs n t))

/-- The dataset list as a structural recursion over the key list, proved
equal to the fold inside `buildDatasets`. -/
def mkDatasets (fps : List (String × List Flat))
    (labels : List (Option JDate)) : Nat → List String → List Dataset
  | _, [] => []
  | ic, k :: ks =>
    mkDataset fps labels ic k :: mkDatasets fps labels (ic + 1) ks

/-- The series a `rechart` call produces, defaulting to the empty series
on the error case (unreachable under `allFlat`). -/
def seriesOf (msgs : List Msg) (n : Nat) (t : String) (ic : Nat) : Series :=
  ((rechart msgs n t ic).toOption.map RechartResult.series).getD ⟨[], []⟩

/-! ### Concrete messages used by claim witnesses and counterexamples -/

/-- A flattened message that qualifies for no call with topic
"temperature": its flat topic is "humidity". -/
def mC7 : Msg := simpleflat
  ⟨"b1", "1970-01-01T00:00:00Z",
   some [("Humidity", [("sensor_id", .vnum 1), ("hum", .vnum 50)])], none⟩

def mC4a : Msg :=
  ⟨"b1", "1970-01-01T00:00:00Z",
   some [("Temperature", [("sensor_id", .vnum 1), ("val", .vnum 5)])], none⟩

def mC4b : Msg :=
  ⟨"b2", "1970-01-01T00:01:00Z",
   some [("Humidity", [("sensor_id", .vnum 2), ("hum", .vnum 6)])], none⟩

def jsonC4 : List Msg := [mC4a, mC4b, mC4a]

def mC8 : Msg := ⟨"b1", "1970-01-01T00:00:00Z", some [], none⟩

def mC1old : Msg := simpleflat
  ⟨"b1", "1970-01-01T00:00:00Z",
   some [("Temperature", [("sensor_id", .vnum 1), ("val", .vnum 10)])], none⟩

def mC1new : Msg := simpleflat
  ⟨"b1", "1970-01-05T00:00:00Z",
   some [("Temperature", [("sensor_id", .vnum 1), ("val", .vnum 11)])], none⟩

def msgsC1 : List Msg := [mC1new, mC1old]

def mC3a : Msg := simpleflat
  ⟨"b1", "1970-01-03T00:00:00Z",
   some [("Temperature", [("sensor_id", .vnum 1), ("val", .vnum 1)])], none⟩

def mC3b : Msg := simpleflat
  ⟨"b1", "1970-01-09T00:00:00Z",
   some [("Temperature", [("sensor_id", .vnum 1), ("val", .vnum 2)])], none⟩

def mC3c : Msg := simpleflat
  ⟨"b1", "1970-01-03T00:00:00Z",
   some [("Temperature", [("sensor_id", .vnum 2), ("val", .vnum 3)])], none⟩

def msgsC3 : List Msg := [mC3a, mC3b, mC3c]

def mC2w1 : Msg := simpleflat
  ⟨"b1", "1970-01-01T10:00:00Z",
   some [("Temperature", [("sensor_id", .vnum 1), ("val", .vnum 20)])], none⟩

def mC2w2 : Msg := simpleflat
  ⟨"b1", "1970-01-01T10:01:00Z",
   some [("Temperature", [("sensor_id", .vnum 2), ("val", .vnum 21)])], none⟩

def msgsC2w : List Msg := [mC2w1, mC2w2]

def mC2a : Msg := simpleflat
  ⟨"b1", "1970-01-01T00:00:00Z",
   some [("Temperature", [("sensor_id", .vnum 1), ("val", .vnum 1)])], none⟩

def mC2b : Msg := simpleflat
  ⟨"b1", "1970-01-01T00:00:00.500Z",
   some [("Temperature", [("sensor_id", .vnum 1), ("val", .vnum 2)])], none⟩

def msgsC2 : List Msg := [mC2a, mC2b]

def mC6 : Msg :=
  ⟨"b1", "1970-01-02T00:00:00Z",
   some [("Temperature", [("temp_c", .vnum 42)])], none⟩

def mC6e : Msg := ⟨"b1", "1970-01-02T00:00:00Z", none, none⟩

def mC9 (i : Int) : Msg := simpleflat
  ⟨"b1", "1970-01-01T00:00:00Z",
   some [("Temperature", [("sensor_id", .vnum i), ("val", .vnum i)])], none⟩

def msgsC9 : List Msg :=
  [mC9 0, mC9 1, mC9 2, mC9 3, mC9 4, mC9 5, mC9 6, mC9 7, mC9 8, mC9 9]


/-! ### Association-list lemmas -/

theorem find?_fst_preserving {α : Type} (o : List (String × α))
    (f : String × α → String × α) (hf : ∀ p, (f p).1 = p.1) (s : String) :
    (o.map f).find? (fun p => p.1 == s)
      = (o.find? (fun p => p.1 == s)).map f := by
  have hpred : ((fun p : String × α => p.1 == s) ∘ f)
      = fun p : String × α => p.1 == s := by
    funext p
    simp [Function.comp, hf p]
  rw [List.find?_map, hpred]

theorem bkt_objPush {α : Type} (o : List (String × List α)) (k s : String)
    (x : α) :
    bkt (objPush o k x) s = if s = k then bkt o s ++ [x] else bkt o s := by
  unfold objPush bkt objGet?
  split
  · rename_i hany
    rw [find?_fst_preserving o _ (fun p => by by_cases h : p.1 = k <;> simp [h]) s]
    cases hf : o.find? (fun p => p.1 == s) with
    | none =>
      rw [List.find?_eq_none] at hf
      by_cases hsk : s = k
      · rcases List.any_eq_true.mp hany with ⟨q, hq, hqk⟩
        have : ¬ (q.1 == s) = true := hf q hq
        simp only [beq_iff_eq] at this hqk
        exact absurd (hqk.trans hsk.symm) this
      · simp [hsk]
    | some p =>
      have hps : p.1 = s := by
        have := List.find?_some hf
        simpa using this
      by_cases hsk : s = k
      · have hpk : p.1 = k := hps.trans hsk
        simp [hpk, hsk]
      · have hpk : p.1 ≠ k := by
          rw [hps]
          exact hsk
        simp [hpk, hsk]
  · rename_i hany
    have hnone : o.find? (fun p => p.1 == k) = none := by
      rw [List.find?_eq_none]
      intro p hp hpk
      exact hany (List.any_eq_true.mpr ⟨p, hp, hpk⟩)
    rw [List.find?_append]
    by_cases hsk : s = k
    · rw [hsk, hnone]
      simp
    · have hks : ((k, [x]).1 == s) = false := by simp [Ne.symm hsk]
      simp only [List.find?_cons, hks, cond_false, List.find?_nil,
        Option.or_none]
      simp [hsk]

theorem keys_objPush_keys {α : Type} (o : List (String × List α))
    (k : String) (x : α) :
    keys (objPush o k x)
      = if o.any (fun p => p.1 == k) then keys o else keys o ++ [k] := by
  unfold objPush keys
  split
  · simp only [List.map_map]
    apply List.map_congr_left
    intro p _
    by_cases h : p.1 = k <;> simp [h, Function.comp]
  · simp

theorem nodup_keys_objPush {α : Type} (o : List (String × List α))
    (k : String) (x : α) (h : (keys o).Nodup) :
    (keys (objPush o k x)).Nodup := by
  rw [keys_objPush_keys]
  split
  · exact h
  · rename_i hany
    have hk : k ∉ keys o := by
      intro hmem
      rcases List.mem_map.mp hmem with ⟨p, hp, hpk⟩
      exact hany (List.any_eq_true.mpr ⟨p, hp, by simp [hpk]⟩)
    simp [List.nodup_append, h, hk]

theorem sumB_cons {α : Type} (p : String × List α) (o : List (String × List α)) :
    sumB (p :: o) = p.2.length + sumB o := by
  simp [sumB]

theorem sumB_map_bump {α : Type} (k : String) (x : α) :
    ∀ o : List (String × List α), (keys o).Nodup →
      o.any (fun p => p.1 == k) = true →
      sumB (o.map (fun p => if p.1 == k then (p.1, p.2 ++ [x]) else p))
        = sumB o + 1 := by
  intro o
  induction o with
  | nil =>
    intro _ hany
    simp at hany
  | cons p rest ih =>
    intro hnd hany
    have hnd2 : p.1 ∉ keys rest ∧ (keys rest).Nodup := List.nodup_cons.mp hnd
    by_cases hp : p.1 = k
    · have htail : rest.map (fun q => if q.1 == k then (q.1, q.2 ++ [x]) else q)
          = rest.map id := by
        apply List.map_congr_left
        intro q hq
        have hqk : q.1 ≠ k := by
          intro hqk
          exact hnd2.1 (hp ▸ hqk ▸ List.mem_map.mpr ⟨q, hq, rfl⟩)
        simp [hqk]
      rw [List.map_cons, htail, List.map_id]
      simp only [hp, beq_self_eq_true, if_true]
      rw [sumB_cons, sumB_cons]
      simp
      omega
    · have hpk : (p.1 == k) = false := by simp [hp]
      have hany2 : rest.any (fun q => q.1 == k) = true := by
        simpa [List.any_cons, hpk] using hany
      have hrec := ih hnd2.2 hany2
      rw [List.map_cons]
      simp only [hpk, Bool.false_eq_true, if_false]
      rw [sumB_cons, sumB_cons, hrec]
      omega

theorem sumB_objPush {α : Type} (o : List (String × List α)) (k : String)
    (x : α) (h : (keys o).Nodup) :
    sumB (objPush o k x) = sumB o + 1 := by
  unfold objPush
  split
  · rename_i hany
    exact sumB_map_bump k x o h hany
  · simp [sumB, List.map_append]

/-- Complete characterization of folding `objPush` over a list: keys stay
duplicate-free, the total size grows by the list length, and each bucket
is the original bucket extended by the matching-key items in order. -/
theorem objPushAll_spec {α : Type} (key : α → String) :
    ∀ (l : List α) (o : List (String × List α)), (keys o).Nodup →
      (keys (objPushAll key l o)).Nodup ∧
      sumB (objPushAll key l o) = sumB o + l.length ∧
      ∀ k, bkt (objPushAll key l o) k
        = bkt o k ++ l.filter (fun x => key x == k) := by
  intro l
  induction l with
  | nil =>
    intro o h
    refine ⟨h, by simp [objPushAll], ?_⟩
    intro k
    simp [objPushAll]
  | cons x l2 ih =>
    intro o h
    have hstep : objPushAll key (x :: l2) o
        = objPushAll key l2 (objPush o (key x) x) := by
      simp [objPushAll, List.foldl_cons]
    have hnd2 := nodup_keys_objPush o (key x) x h
    obtain ⟨ha, hb, hc⟩ := ih (objPush o (key x) x) hnd2
    rw [hstep]
    refine ⟨ha, ?_, ?_⟩
    · rw [hb, sumB_objPush o (key x) x h]
      simp
      omega
    · intro k
      rw [hc k, bkt_objPush]
      by_cases hk : key x == k
      · have hk2 : k = key x := by
          have := beq_iff_eq.mp hk
          exact this.symm
        simp [hk2, hk, List.filter_cons, List.append_assoc]
      · have hk2 : ¬ k = key x := by
          intro he
          exact absurd (beq_iff_eq.mpr he.symm) (by simpa using hk)
        simp only [List.filter_cons, hk, if_neg hk2]
        simp

/-! ### Stable insertion sort lemmas -/

theorem insSorted_perm {α : Type} (le : α → α → Bool) (x : α) :
    ∀ l : List α, (insSorted le x l).Perm (x :: l) := by
  intro l
  induction l with
  | nil => exact List.Perm.refl _
  | cons y ys ih =>
    unfold insSorted
    split
    · exact (ih.cons y).trans (List.Perm.swap x y ys)
    · exact List.Perm.refl _

theorem jsort_perm_aux {α : Type} (le : α → α → Bool) :
    ∀ (l acc : List α),
      (l.foldl (fun a x => insSorted le x a) acc).Perm (acc ++ l) := by
  intro l
  induction l with
  | nil => simp
  | cons x l2 ih =>
    intro acc
    have h1 := ih (insSorted le x acc)
    have h2 : (insSorted le x acc ++ l2).Perm ((x :: acc) ++ l2) :=
      (insSorted_perm le x acc).append_right l2
    have h3 : ((x :: acc) ++ l2).Perm (acc ++ x :: l2) := by
      simpa using (List.perm_middle).symm
    exact (h1.trans h2).trans h3

theorem jsort_perm {α : Type} (le : α → α → Bool) (l : List α) :
    (jsort le l).Perm l := by
  have := jsort_perm_aux le l []
  simpa [jsort] using this

theorem insSorted_pairwise {α : Type} (le : α → α → Bool)
    (htot : ∀ a b, le a b = false → le b a = true)
    (htrans : ∀ a b c, le a b = true → le b c = true → le a c = true)
    (x : α) :
    ∀ l : List α, l.Pairwise (fun a b => le a b = true) →
      (insSorted le x l).Pairwise (fun a b => le a b = true) := by
  intro l
  induction l with
  | nil =>
    intro _
    simp [insSorted]
  | cons y ys ih =>
    intro h
    obtain ⟨hy, hys⟩ := List.pairwise_cons.mp h
    unfold insSorted
    cases hxy : le y x with
    | false =>
      rw [if_neg (by simp [hxy])]
      refine List.pairwise_cons.mpr ⟨?_, h⟩
      intro z hz
      rcases List.mem_cons.mp hz with hz | hz
      · subst hz
        exact htot z x hxy
      · exact htrans x y z (htot y x hxy) (hy z hz)
    | true =>
      rw [if_pos (by simp [hxy])]
      refine List.pairwise_cons.mpr ⟨?_, ih hys⟩
      intro z hz
      have hz2 := (insSorted_perm le x ys).mem_iff.mp hz
      rcases List.mem_cons.mp hz2 with hz2 | hz2
      · rw [hz2]
        exact hxy
      · exact hy z hz2

theorem jsort_pairwise_aux {α : Type} (le : α → α → Bool)
    (htot : ∀ a b, le a b = false → le b a = true)
    (htrans : ∀ a b c, le a b = true → le b c = true → le a c = true) :
    ∀ (l acc : List α), acc.Pairwise (fun a b => le a b = true) →
      (l.foldl (fun a x => insSorted le x a) acc).Pairwise
        (fun a b => le a b = true) := by
  intro l
  induction l with
  | nil =>
    intro acc h
    simpa using h
  | cons x l2 ih =>
    intro acc h
    exact ih (insSorted le x acc) (insSorted_pairwise le htot htrans x acc h)

theorem jsort_pairwise {α : Type} (le : α → α → Bool)
    (htot : ∀ a b, le a b = false → le b a = true)
    (htrans : ∀ a b c, le a b = true → le b c = true → le a c = true)
    (l : List α) :
    (jsort le l).Pairwise (fun a b => le a b = true) :=
  jsort_pairwise_aux le htot htrans l [] (List.Pairwise.nil)

/-! ### Totality and transitivity of the string comparison -/

theorem chListLe_total :
    ∀ a b : List Char, chListLe a b = false → chListLe b a = true := by
  intro a
  induction a with
  | nil =>
    intro b h
    simp [chListLe] at h
  | cons c as ih =>
    intro b h
    cases b with
    | nil => simp [chListLe]
    | cons d bs =>
      unfold chListLe at h ⊢
      by_cases h1 : c.toNat < d.toNat
      · simp [h1] at h
      · by_cases h2 : d.toNat < c.toNat
        · simp [h1, h2] at h ⊢
        · have h3 : ¬ d.toNat < c.toNat := h2
          simp only [if_neg h1, if_neg h2] at h
          simp only [if_neg (by omega : ¬ d.toNat < c.toNat),
            if_neg (by omega : ¬ c.toNat < d.toNat)]
          exact ih bs h

theorem chListLe_trans :
    ∀ a b c : List Char, chListLe a b = true → chListLe b c = true →
      chListLe a c = true := by
  intro a
  induction a with
  | nil =>
    intro b c _ _
    simp [chListLe]
  | cons x as ih =>
    intro b c h1 h2
    cases b with
    | nil => simp [chListLe] at h1
    | cons y bs =>
      cases c with
      | nil => simp [chListLe] at h2
      | cons z cs =>
        unfold chListLe at h1 h2 ⊢
        by_cases hxy : x.toNat < y.toNat
        · by_cases hyz : y.toNat < z.toNat
          · simp [show x.toNat < z.toNat by omega]
          · by_cases hzy : z.toNat < y.toNat
            · simp [hyz, hzy] at h2
            · simp [show x.toNat < z.toNat by omega]
        · by_cases hyx : y.toNat < x.toNat
          · simp [hxy, hyx] at h1
          · by_cases hyz : y.toNat < z.toNat
            · simp [show x.toNat < z.toNat by omega]
            · by_cases hzy : z.toNat < y.toNat
              · simp [hyz, hzy] at h2
              · simp only [if_neg hxy, if_neg hyx] at h1
                simp only [if_neg hyz, if_neg hzy] at h2
                simp only [if_neg (by omega : ¬ x.toNat < z.toNat),
                  if_neg (by omega : ¬ z.toNat < x.toNat)]
                exact ih bs cs h1 h2

theorem strLe_total (a b : String) : strLe a b = false → strLe b a = true :=
  chListLe_total a.toList b.toList

theorem strLe_trans (a b c : String) :
    strLe a b = true → strLe b c = true → strLe a c = true :=
  chListLe_trans a.toList b.toList c.toList

/-! ### Characterization of the scan loop -/

/-- Under `allFlat`, the scan loop succeeds and its result is determined:
the grouping is the `objPush`-fold over the consumed records and the label
accumulator receives their timestamps in consumption order. -/
theorem consume_spec (t : String) :
    ∀ (rev : List Msg) (n : Nat) (fps : List (String × List Flat))
      (labels : List (Option JDate)),
      (∀ m ∈ rev, m.flat.isSome) →
      consume t n rev fps labels =
        .ok ((consumedRev t rev n).foldl
              (fun a f => objPush a (jvalKey f.sensor_id) f) fps,
             labels ++ (consumedRev t rev n).map (fun f => f.when)) := by
  intro rev
  induction rev with
  | nil =>
    intro n fps labels _
    cases n <;> simp [consume, consumedRev]
  | cons m rest ih =>
    intro n fps labels h
    cases n with
    | zero => simp [consume, consumedRev]
    | succ n2 =>
      obtain ⟨fl, hfl⟩ :=
        Option.isSome_iff_exists.mp (h m (List.mem_cons_self m rest))
      have hrest : ∀ m2 ∈ rest, m2.flat.isSome :=
        fun m2 hm2 => h m2 (List.mem_cons_of_mem m hm2)
      have hflatOf : flatOf m = fl := by simp [flatOf, hfl]
      simp only [consume, hfl]
      cases hq : (fl.topic == some t) with
      | true =>
        have hcr : consumedRev t (m :: rest) (n2 + 1)
            = fl :: consumedRev t rest n2 := by
          simp [consumedRev, List.filter_cons, hflatOf, qualB, hq]
        rw [if_pos rfl, hcr,
          ih n2 (objPush fps (jvalKey fl.sensor_id) fl) (labels ++ [fl.when])
            hrest]
        simp [List.append_assoc]
      | false =>
        have hcr : consumedRev t (m :: rest) (n2 + 1)
            = consumedRev t rest (n2 + 1) := by
          simp [consumedRev, List.filter_cons, hflatOf, qualB, hq]
        rw [if_neg (by simp), hcr, ih (n2 + 1) fps labels hrest]

/-! ### Characterization of the dataset loop -/

theorem buildDatasets_foldl (fps : List (String × List Flat))
    (labels : List (Option JDate)) :
    ∀ (ks : List String) (acc : List Dataset) (ic : Nat),
      ks.foldl (fun a k => (a.1 ++ [mkDataset fps labels a.2 k], a.2 + 1))
          (acc, ic)
        = (acc ++ mkDatasets fps labels ic ks, ic + ks.length) := by
  intro ks
  induction ks with
  | nil =>
    intro acc ic
    simp [mkDatasets]
  | cons k ks2 ih =>
    intro acc ic
    rw [List.foldl_cons, ih (acc ++ [mkDataset fps labels ic k]) (ic + 1)]
    simp [mkDatasets, List.append_assoc]
    omega

theorem buildDatasets_eq (fps : List (String × List Flat))
    (labels : List (Option JDate)) (ic0 : Nat) :
    buildDatasets fps labels ic0
      = (mkDatasets fps labels ic0 (forInKeys (keys fps)),
         ic0 + (forInKeys (keys fps)).length) := by
  unfold buildDatasets
  rw [buildDatasets_foldl]
  simp

theorem mkDatasets_mem (fps : List (String × List Flat))
    (labels : List (Option JDate)) :
    ∀ (ks : List String) (ic : Nat) (ds : Dataset),
      ds ∈ mkDatasets fps labels ic ks →
      ∃ k ∈ ks, ∃ j, ds = mkDataset fps labels j k := by
  intro ks
  induction ks with
  | nil =>
    intro ic ds h
    simp [mkDatasets] at h
  | cons k ks2 ih =>
    intro ic ds h
    rcases List.mem_cons.mp h with h | h
    · exact ⟨k, List.mem_cons_self k ks2, ic, h⟩
    · obtain ⟨k2, hk2, j, hj⟩ := ih (ic + 1) ds h
      exact ⟨k2, List.mem_cons_of_mem k hk2, j, hj⟩

theorem mkDatasets_length (fps : List (String × List Flat))
    (labels : List (Option JDate)) :
    ∀ (ks : List String) (ic : Nat),
      (mkDatasets fps labels ic ks).length = ks.length := by
  intro ks
  induction ks with
  | nil => intro ic; simp [mkDatasets]
  | cons k ks2 ih =>
    intro ic
    simp [mkDatasets, ih (ic + 1)]

theorem mkDatasets_getD (fps : List (String × List Flat))
    (labels : List (Option JDate)) (dflt : Dataset) :
    ∀ (ks : List String) (ic i : Nat), i < ks.length →
      (mkDatasets fps labels ic ks).getD i dflt
        = mkDataset fps labels (ic + i) (ks.getD i "") := by
  intro ks
  induction ks with
  | nil =>
    intro ic i h
    simp at h
  | cons k ks2 ih =>
    intro ic i h
    cases i with
    | zero => simp [mkDatasets]
    | succ i2 =>
      have h2 : i2 < ks2.length := by simpa using h
      have := ih (ic + 1) i2 h2
      simp only [mkDatasets, List.getD_cons_succ, this]
      congr 1
      omega

/-! ### Lookup lemmas for the string-keyed `bytime` object -/

theorem objGet?_objSet {α : Type} (o : List (String × α)) (k s : String)
    (v : α) :
    objGet? (objSet o k v) s = if s = k then some v else objGet? o s := by
  unfold objSet objGet?
  split
  · rename_i hany
    rw [find?_fst_preserving o _ (fun p => by by_cases h : p.1 = k <;> simp [h]) s]
    cases hf : o.find? (fun p => p.1 == s) with
    | none =>
      rw [List.find?_eq_none] at hf
      by_cases hsk : s = k
      · rcases List.any_eq_true.mp hany with ⟨q, hq, hqk⟩
        have : ¬ (q.1 == s) = true := hf q hq
        simp only [beq_iff_eq] at this hqk
        exact absurd (hqk.trans hsk.symm) this
      · simp [hsk]
    | some p =>
      have hps : p.1 = s := by
        have := List.find?_some hf
        simpa using this
      by_cases hsk : s = k
      · have hpk : p.1 = k := hps.trans hsk
        simp [hpk, hsk]
      · have hpk : p.1 ≠ k := by
          rw [hps]
          exact hsk
        simp [hpk, hsk]
  · rename_i hany
    have hnone : o.find? (fun p => p.1 == k) = none := by
      rw [List.find?_eq_none]
      intro p hp hpk
      exact hany (List.any_eq_true.mpr ⟨p, hp, hpk⟩)
    rw [List.find?_append]
    by_cases hsk : s = k
    · rw [hsk, hnone]
      simp
    · have hks : ((k, v).1 == s) = false := by simp [Ne.symm hsk]
      simp only [List.find?_cons, hks, cond_false, List.find?_nil,
        Option.or_none]
      simp [hsk]

theorem bytime_get_some :
    ∀ (flats : List Flat) (init : List (String × JVal)) (s : String) (w : JVal),
      objGet? (flats.foldl (fun bt sf => objSet bt (whenKey sf.when) sf.value)
        init) s = some w →
      (∃ f ∈ flats, whenKey f.when = s ∧ f.value = w) ∨
        objGet? init s = some w := by
  intro flats
  induction flats with
  | nil =>
    intro init s w h
    exact Or.inr h
  | cons f fl ih =>
    intro init s w h
    rw [List.foldl_cons] at h
    rcases ih (objSet init (whenKey f.when) f.value) s w h with hl | hr
    · obtain ⟨g, hg, hgs, hgw⟩ := hl
      exact Or.inl ⟨g, List.mem_cons_of_mem f hg, hgs, hgw⟩
    · rw [objGet?_objSet] at hr
      by_cases hs : s = whenKey f.when
      · rw [if_pos hs] at hr
        exact Or.inl ⟨f, List.mem_cons_self f fl, hs.symm, Option.some.inj hr⟩
      · rw [if_neg hs] at hr
        exact Or.inr hr

theorem bytime_get_none :
    ∀ (flats : List Flat) (init : List (String × JVal)) (s : String),
      objGet? (flats.foldl (fun bt sf => objSet bt (whenKey sf.when) sf.value)
        init) s = none →
      (∀ f ∈ flats, whenKey f.when ≠ s) := by
  intro flats
  induction flats with
  | nil =>
    intro init s _ f hf
    simp at hf
  | cons f fl ih =>
    intro init s h g hg
    rw [List.foldl_cons] at h
    rcases List.mem_cons.mp hg with hgf | hgl
    · subst hgf
      intro hgs
      -- the head stored its value under key `s`; a key, once present,
      -- survives every later overwrite, so the final lookup is not `none`
      have hsur : ∀ (rest : List Flat) (o : List (String × JVal)),
          (objGet? o s).isSome →
          (objGet? (rest.foldl
            (fun bt sf => objSet bt (whenKey sf.when) sf.value) o) s).isSome := by
        intro rest
        induction rest with
        | nil => intro o ho; exact ho
        | cons r rl ihr =>
          intro o ho
          rw [List.foldl_cons]
          apply ihr
          rw [objGet?_objSet]
          by_cases hrs : s = whenKey r.when
          · simp [hrs]
          · rw [if_neg hrs]
            exact ho
      have hstart :
          (objGet? (objSet init (whenKey g.when) g.value) s).isSome := by
        rw [objGet?_objSet, if_pos hgs.symm]
        simp
      have hfin := hsur fl (objSet init (whenKey g.when) g.value) hstart
      rw [h] at hfin
      simp at hfin
    · exact ih (objSet init (whenKey f.when) f.value) s h g hgl

/-- `for ... in` enumeration reorders but neither adds nor removes keys. -/
theorem forInKeys_mem (ks : List String) (k : String) :
    k ∈ forInKeys ks ↔ k ∈ ks := by
  unfold forInKeys
  rw [List.mem_append]
  constructor
  · rintro (h | h)
    · exact List.mem_of_mem_filter ((jsort_perm _ _).mem_iff.mp h)
    · exact List.mem_of_mem_filter h
  · intro h
    by_cases hi : isIdxKey k
    · exact Or.inl ((jsort_perm _ _).mem_iff.mpr
        (List.mem_filter.mpr ⟨h, hi⟩))
    · exact Or.inr (List.mem_filter.mpr ⟨h, by simp [hi]⟩)

/-- Under `allFlat`, a `rechart` call succeeds and every component of its
result is characterized: labels are the sorted timestamps of the consumed
records, datasets are generated per sensor key in `for-in` order with the
color cursor starting at zero, the cursor advances once per dataset, and
the message array is returned unchanged. -/
theorem rechart_ok (msgs : List Msg) (n : Nat) (t : String) (ic : Nat)
    (h : allFlat msgs) :
    rechart msgs n t ic =
      .ok ⟨⟨labelsOf msgs n t,
            mkDatasets (fpsOf msgs n t) (labelsOf msgs n t) 0
              (keysOf msgs n t)⟩,
           (keysOf msgs n t).length, msgs⟩ := by
  have hrev : ∀ m ∈ msgs.reverse, m.flat.isSome :=
    fun m hm => h m (List.mem_reverse.mp hm)
  unfold rechart
  rw [consume_spec t msgs.reverse n [] [] hrev]
  simp only [List.nil_append, buildDatasets_eq, Nat.zero_add]
  rfl

/-- Corner case used by several claims: the empty message list produces
the empty chart for every limit, topic and cursor value. -/
theorem rechart_nil (n : Nat) (t : String) (ic : Nat) :
    rechart [] n t ic = .ok ⟨⟨[], []⟩, 0, []⟩ := by
  cases n <;> rfl

theorem consume_zero (t : String) (rev : List Msg)
    (fps : List (String × List Flat)) (labels : List (Option JDate)) :
    consume t 0 rev fps labels = .ok (fps, labels) := by
  cases rev <;> rfl

/-- Corner case: limit zero consumes nothing, whatever the messages. -/
theorem rechart_zero (msgs : List Msg) (t : String) (ic : Nat) :
    rechart msgs 0 t ic = .ok ⟨⟨[], []⟩, 0, msgs⟩ := by
  unfold rechart
  rw [consume_zero]
  rfl

/-! ### Claim C5 -/

/-- Claim C5: for any fixed message list, limit, and topic, two
independent calls to the series builder produce identical label axes and
identical per-sensor value arrays, and, because the color cursor is reset
at the start of each call, identical color assignments as well. The two
calls are modelled by arbitrary incoming cursor states `ic1`, `ic2`; the
entire result (labels, datasets with their colors, final cursor, message
state) coincides. -/
theorem C5_determinism (msgs : List Msg) (n : Nat) (t : String)
    (ic1 ic2 : Nat) :
    rechart msgs n t ic1 = rechart msgs n t ic2 := rfl

/-! ### Claim C10 -/

/-- Claim C10: the series builder never modifies its input — after any
successful call, the observable message sequence (and with it every flat
record attached to a message) is the input one, field for field; the only
state effects are on the chart contents and the color cursor, which the
result carries separately. -/
theorem C10_frame (msgs : List Msg) (n : Nat) (t : String) (ic : Nat)
    (r : RechartResult) (h : rechart msgs n t ic = .ok r) :
    r.msgsAfter = msgs := by
  unfold rechart at h
  revert h
  cases consume t n msgs.reverse [] [] with
  | error e =>
    intro h
    exact Except.noConfusion h
  | ok p =>
    obtain ⟨fps, labels0⟩ := p
    intro h
    rw [← Except.ok.inj h]

/-- Witness for C10 at a concrete input. -/
theorem C10_witness :
    (RechartResult.mk ⟨[], []⟩ 0 []).msgsAfter = ([] : List Msg) :=
  C10_frame [] 1 "temperature" 0 ⟨⟨[], []⟩, 0, []⟩ (rechart_nil 1 "temperature" 0)

/-! ### Claim C7 -/

/-- Claim C7: with limit 0, or with a message list containing no
qualifying records (including the empty list), or when the selected
broker id is absent from the index so the builder receives an empty
message list, the result is an empty label axis and an empty series
list, produced without error. -/
theorem C7_empty_cases :
    (∀ n t ic, rechart [] n t ic = .ok ⟨⟨[], []⟩, 0, []⟩) ∧
    (∀ msgs t ic, rechart msgs 0 t ic = .ok ⟨⟨[], []⟩, 0, msgs⟩) ∧
    (∀ msgs n t ic, allFlat msgs →
      (∀ m ∈ msgs, qualB (flatOf m) t = false) →
      rechart msgs n t ic = .ok ⟨⟨[], []⟩, 0, msgs⟩) ∧
    (∀ pb b n t ic, objGet? pb b = none →
      u pb b n t ic = .ok ⟨⟨[], []⟩, 0, []⟩) := by
  refine ⟨rechart_nil, rechart_zero, ?_, ?_⟩
  · intro msgs n t ic hf hq
    have hcons : consumedOf msgs n t = [] := by
      unfold consumedOf consumedRev
      have hfilter :
          (msgs.reverse.map flatOf).filter (fun f => qualB f t) = [] := by
        rw [List.filter_eq_nil_iff]
        intro f hf2
        rcases List.mem_map.mp hf2 with ⟨m, hm, rfl⟩
        simp [hq m (List.mem_reverse.mp hm)]
      rw [hfilter, List.take_nil]
    have h1 : labelsOf msgs n t = [] := by
      unfold labelsOf
      rw [hcons]
      rfl
    have h2 : fpsOf msgs n t = [] := by
      unfold fpsOf
      rw [hcons]
      rfl
    have h3 : keysOf msgs n t = [] := by
      unfold keysOf
      rw [h2]
      rfl
    rw [rechart_ok msgs n t ic hf, h1, h2, h3]
    rfl
  · intro pb b n t ic h
    unfold u
    rw [h]
    exact rechart_nil n t ic

/-- Witness for C7 at concrete inputs: a non-qualifying one-message list
and an absent broker id. -/
theorem C7_witness :
    rechart [mC7] 5 "temperature" 0 = .ok ⟨⟨[], []⟩, 0, [mC7]⟩ ∧
    u [("b1", [mC7])] "zz" 5 "temperature" 0 = .ok ⟨⟨[], []⟩, 0, []⟩ :=
  ⟨C7_empty_cases.2.2.1 [mC7] 5 "temperature" 0 (by decide) (by decide),
   C7_empty_cases.2.2.2 [("b1", [mC7])] "zz" 5 "temperature" 0 (by decide)⟩

/-! ### Claim C4 -/

/-- Claim C4: the broker index rebuild partitions any fetched message
list completely — the bucket sizes sum to the input length, bucket keys
are duplicate-free, each bucket holds exactly the (flattened) messages
whose `broker_id` is its key in original fetch order, and every message
lies in the bucket of its own broker id and in no other. -/
theorem C4_partition (json : List Msg) :
    sumB (fetch_the_goods json) = json.length ∧
    (keys (fetch_the_goods json)).Nodup ∧
    (∀ bid, bkt (fetch_the_goods json) bid
      = (json.map simpleflat).filter (fun m => m.broker_id == bid)) ∧
    (∀ m ∈ json.map simpleflat,
      m ∈ bkt (fetch_the_goods json) m.broker_id ∧
      ∀ bid, m ∈ bkt (fetch_the_goods json) bid → bid = m.broker_id) := by
  have hfold : fetch_the_goods json
      = objPushAll (fun m => m.broker_id) (json.map simpleflat) [] := by
    unfold fetch_the_goods objPushAll
    rw [List.foldl_map]
  obtain ⟨h1, h2, h3⟩ := objPushAll_spec (fun m => m.broker_id)
    (json.map simpleflat) [] List.nodup_nil
  have hbkt : ∀ bid, bkt (fetch_the_goods json) bid
      = (json.map simpleflat).filter (fun m => m.broker_id == bid) := by
    intro bid
    rw [hfold]
    have := h3 bid
    simpa [bkt, objGet?] using this
  refine ⟨?_, ?_, hbkt, ?_⟩
  · rw [hfold, h2]
    simp [sumB]
  · rw [hfold]
    exact h1
  · intro m hm
    constructor
    · rw [hbkt m.broker_id]
      exact List.mem_filter.mpr ⟨hm, by simp⟩
    · intro bid hmem
      rw [hbkt bid] at hmem
      exact (beq_iff_eq.mp (List.mem_filter.mp hmem).2).symm

/-- Witness for C4 at a concrete three-message fetch over two brokers. -/
theorem C4_witness :
    sumB (fetch_the_goods jsonC4) = jsonC4.length ∧
    simpleflat mC4a ∈ bkt (fetch_the_goods jsonC4) (simpleflat mC4a).broker_id :=
  ⟨(C4_partition jsonC4).1,
   ((C4_partition jsonC4).2.2.2 (simpleflat mC4a) (by decide)).1⟩

/-! ### Claim C8 -/

/-- Claim C8 counterexample: calling the flattener on a message whose
SensorData mapping is empty is not a no-op that leaves no flat record —
it attaches an empty flat object to the message. -/
theorem C8_counterexample :
    (simpleflat mC8).flat = some emptyFlat ∧ (simpleflat mC8).flat ≠ none :=
  ⟨by decide, by decide⟩

/-- Claim C8 (amended): flattening a message whose SensorData mapping is
empty attaches the empty flat record (every field undefined) in place of
any previous annotation, leaving all other fields of the message
unchanged; downstream, such a record is excluded by the topic filter for
every topic, because its undefined topic equals no topic string. -/
theorem C8_empty_amended (m : Msg) (h : m.payload_SensorData = some []) :
    simpleflat m = ⟨m.broker_id, m.constructed_when, m.payload_SensorData,
      some emptyFlat⟩ ∧
    ∀ t, qualB (flatOf (simpleflat m)) t = false := by
  constructor
  · simp [simpleflat, h]
  · intro t
    simp [simpleflat, h, flatOf, qualB, emptyFlat]

/-- Witness for C8 at the concrete empty-SensorData message. -/
theorem C8_witness :
    simpleflat mC8 = ⟨mC8.broker_id, mC8.constructed_when,
      mC8.payload_SensorData, some emptyFlat⟩ :=
  (C8_empty_amended mC8 (by decide)).1

/-! ### Claim C1 -/

/-- Claim C1 (amended): for every message list, limit `n` and topic `t`,
the series builder consumes at most `n` qualifying records, stopping once
`n` have been consumed regardless of how many messages were scanned, and
the consumed records are the last `n` qualifying records in list position
(the scan walks the array from its end), taken newest-position-first —
not necessarily the `n` chronologically-latest by timestamp. The label
axis it returns accordingly carries at most `n` entries. -/
theorem C1_sample_cap_amended (msgs : List Msg) (n : Nat) (t : String)
    (ic : Nat) (h : allFlat msgs) :
    consumedOf msgs n t
      = (((msgs.map flatOf).filter (fun f => qualB f t)).reverse).take n ∧
    (consumedOf msgs n t).length ≤ n ∧
    rechart msgs n t ic
      = .ok ⟨⟨labelsOf msgs n t,
              mkDatasets (fpsOf msgs n t) (labelsOf msgs n t) 0
                (keysOf msgs n t)⟩,
             (keysOf msgs n t).length, msgs⟩ ∧
    (labelsOf msgs n t).length ≤ n := by
  have hlen : (consumedOf msgs n t).length ≤ n := by
    unfold consumedOf consumedRev
    rw [List.length_take]
    exact Nat.min_le_left _ _
  refine ⟨?_, hlen, rechart_ok msgs n t ic h, ?_⟩
  · unfold consumedOf consumedRev
    rw [List.map_reverse, List.filter_reverse]
  · unfold labelsOf sortLabels
    rw [(jsort_perm _ _).length_eq, List.length_map]
    exact hlen

/-- Claim C1 counterexample: with limit 1, the builder consumes the
qualifying record at the end of the list, whose instant is 1970-01-01,
although a qualifying record with the strictly later instant 1970-01-05
is present earlier in the list — so the consumed record is not the
chronologically-latest qualifying one. -/
theorem C1_counterexample :
    ((rechart msgsC1 1 "temperature" 0).toOption.map
      (fun r => r.series.labels)) = some [some (.valid 0)] ∧
    (flatOf mC1new).when = some (.valid 345600000) ∧
    qualB (flatOf mC1new) "temperature" = true ∧
    (0 : Int) < 345600000 :=
  ⟨by decide, by decide, by decide, by decide⟩

/-- Witness for C1 at the concrete two-message list with limit 1. -/
theorem C1_witness :
    consumedOf msgsC1 1 "temperature"
      = (((msgsC1.map flatOf).filter
          (fun f => qualB f "temperature")).reverse).take 1 ∧
    (labelsOf msgsC1 1 "temperature").length ≤ 1 :=
  ⟨(C1_sample_cap_amended msgsC1 1 "temperature" 0 (by decide)).1,
   (C1_sample_cap_amended msgsC1 1 "temperature" 0 (by decide)).2.2.2⟩

/-! ### Claim C3 -/

/-- Claim C3 (amended): the label axis returned by the builder is the
multiset of timestamps of the consumed qualifying records — duplicates are
retained, no set-style de-duplication happens — arranged in ascending
order of the JS string rendering of each timestamp (the default
`Array.prototype.sort` comparator), not of the underlying instant. -/
theorem C3_labels_amended (msgs : List Msg) (n : Nat) (t : String)
    (ic : Nat) (h : allFlat msgs) :
    rechart msgs n t ic
      = .ok ⟨⟨labelsOf msgs n t,
              mkDatasets (fpsOf msgs n t) (labelsOf msgs n t) 0
                (keysOf msgs n t)⟩,
             (keysOf msgs n t).length, msgs⟩ ∧
    (labelsOf msgs n t).Pairwise
      (fun a b => strLe (whenKey a) (whenKey b) = true) ∧
    (labelsOf msgs n t).Perm
      ((consumedOf msgs n t).map (fun f => f.when)) := by
  refine ⟨rechart_ok msgs n t ic h, ?_, ?_⟩
  · unfold labelsOf sortLabels
    exact jsort_pairwise _ (fun a b => strLe_total (whenKey a) (whenKey b))
      (fun a b c => strLe_trans (whenKey a) (whenKey b) (whenKey c)) _
  · unfold labelsOf sortLabels
    exact jsort_perm _ _

/-- Claim C3 counterexample: the returned label axis contains the
timestamp 1970-01-03 twice (no set-style de-duplication), and it places
1970-01-09 (a Friday) before 1970-01-03 (a Saturday) because the default
sort compares the date strings "Fri Jan 09 ..." and "Sat Jan 03 ..."
lexicographically — so the axis is neither duplicate-free nor ascending
by instant. -/
theorem C3_counterexample :
    ((rechart msgsC3 9 "temperature" 0).toOption.map
      (fun r => r.series.labels))
      = some [some (.valid 691200000), some (.valid 172800000),
              some (.valid 172800000)] ∧
    (172800000 : Int) < 691200000 :=
  ⟨by decide, by decide⟩

/-- Witness for C3 at the concrete three-message list. -/
theorem C3_witness :
    (labelsOf msgsC3 9 "temperature").Pairwise
      (fun a b => strLe (whenKey a) (whenKey b) = true) ∧
    (labelsOf msgsC3 9 "temperature").Perm
      ((consumedOf msgsC3 9 "temperature").map (fun f => f.when)) :=
  ⟨(C3_labels_amended msgsC3 9 "temperature" 0 (by decide)).2.1,
   (C3_labels_amended msgsC3 9 "temperature" 0 (by decide)).2.2⟩

/-! ### Claim C2 -/

theorem sensor_label_inj (a b : String) :
    "Sensor #" ++ a = "Sensor #" ++ b → a = b := by
  intro h
  have h2 := congrArg String.data h
  simp only [String.data_append] at h2
  exact String.ext (List.append_cancel_left h2)

/-- Claim C2 (amended): in every series produced by the builder, the
value array has the same length as the label axis, and each entry is
either the undefined missing marker — in which case that sensor consumed
no record whose timestamp has the same string rendering as the label —
or a value that this sensor reported at some timestamp with the same
string rendering as the label. Values are never fabricated (no zero, no
interpolation), but because the lookup keys timestamps by their
second-precision string rendering, the reporting timestamp is only
guaranteed to agree with the label up to that rendering, not exactly. -/
theorem C2_alignment_amended (msgs : List Msg) (n : Nat) (t : String)
    (ic : Nat) (h : allFlat msgs) :
    ∀ ds ∈ (seriesOf msgs n t ic).datasets,
      ds.data.length = (seriesOf msgs n t ic).labels.length ∧
      ∀ i, i < ds.data.length →
        ((ds.data.getD i .undef = .undef ∧
          ∀ f ∈ consumedOf msgs n t,
            ds.label = "Sensor #" ++ jvalKey f.sensor_id →
            whenKey f.when
              ≠ whenKey ((seriesOf msgs n t ic).labels.getD i none)) ∨
        (∃ f ∈ consumedOf msgs n t,
          ds.label = "Sensor #" ++ jvalKey f.sensor_id ∧
          whenKey f.when
            = whenKey ((seriesOf msgs n t ic).labels.getD i none) ∧
          ds.data.getD i .undef = f.value)) := by
  have hser : seriesOf msgs n t ic
      = ⟨labelsOf msgs n t,
         mkDatasets (fpsOf msgs n t) (labelsOf msgs n t) 0
           (keysOf msgs n t)⟩ := by
    unfold seriesOf
    rw [rechart_ok msgs n t ic h]
    rfl
  rw [hser]
  intro ds hds
  obtain ⟨k, hk, j, hdsk⟩ := mkDatasets_mem _ _ _ _ ds hds
  subst hdsk
  have hbkt : bkt (fpsOf msgs n t) k
      = (consumedOf msgs n t).filter (fun f => jvalKey f.sensor_id == k) := by
    have h3 := (objPushAll_spec (fun f => jvalKey f.sensor_id)
      (consumedOf msgs n t) [] List.nodup_nil).2.2 k
    unfold fpsOf
    simpa [bkt, objGet?] using h3
  have hlabel : (mkDataset (fpsOf msgs n t) (labelsOf msgs n t) j k).label
      = "Sensor #" ++ k := rfl
  constructor
  · simp [mkDataset]
  · intro i hi
    have hlen : i < (labelsOf msgs n t).length := by
      simpa [mkDataset] using hi
    have hq : (labelsOf msgs n t)[i]?
        = some ((labelsOf msgs n t).getD i none) := by
      rw [List.getD_eq_getElem?_getD, List.getElem?_eq_getElem hlen]
      rfl
    have hdata :
        (mkDataset (fpsOf msgs n t) (labelsOf msgs n t) j k).data.getD i .undef
        = (objGet? (bytimeOf ((bkt (fpsOf msgs n t) k).reverse))
            (whenKey ((labelsOf msgs n t).getD i none))).getD .undef := by
      simp only [mkDataset]
      rw [List.getD_eq_getElem?_getD, List.getElem?_map, hq]
      rfl
    rw [hdata, hlabel]
    cases hl : objGet? (bytimeOf ((bkt (fpsOf msgs n t) k).reverse))
        (whenKey ((labelsOf msgs n t).getD i none)) with
    | none =>
      left
      refine ⟨rfl, ?_⟩
      intro f hf hflabel
      have hfk : jvalKey f.sensor_id = k := (sensor_label_inj _ _ hflabel).symm
      have hfmem : f ∈ (bkt (fpsOf msgs n t) k).reverse := by
        rw [List.mem_reverse, hbkt]
        exact List.mem_filter.mpr ⟨hf, by simp [hfk]⟩
      exact bytime_get_none ((bkt (fpsOf msgs n t) k).reverse) []
        (whenKey ((labelsOf msgs n t).getD i none)) hl f hfmem
    | some w =>
      right
      rcases bytime_get_some ((bkt (fpsOf msgs n t) k).reverse) []
          (whenKey ((labelsOf msgs n t).getD i none)) w hl with hx | hx
      · obtain ⟨f, hfmem, hfs, hfw⟩ := hx
        have hf2 : f ∈ consumedOf msgs n t ∧
            (jvalKey f.sensor_id == k) = true := by
          have hmem2 := List.mem_reverse.mp hfmem
          rw [hbkt] at hmem2
          exact List.mem_filter.mp hmem2
        refine ⟨f, hf2.1, ?_, hfs, ?_⟩
        · rw [beq_iff_eq.mp hf2.2]
        · simpa using hfw.symm
      · simp [objGet?] at hx

/-- Witness for C2 at the two-sensor scenario: the first series has a
value array exactly as long as the label axis. -/
theorem C2_witness :
    (Dataset.mk "Sensor #1" [JVal.vnum 20, JVal.undef] "red").data.length
      = (seriesOf msgsC2w 10 "temperature" 0).labels.length :=
  ((C2_alignment_amended msgsC2w 10 "temperature" 0 (by decide))
    (Dataset.mk "Sensor #1" [JVal.vnum 20, JVal.undef] "red") (by decide)).1

/-- Claim C2 counterexample: sensor 1 reports value 1 at instant 0 ms and
value 2 at instant 500 ms of the same second. The label axis keeps both
instants, yet the value aligned to the 0 ms label is 2 — a value taken
from a different timestamp — because `bytime` keys readings by their
second-precision string rendering and the later write wins. -/
theorem C2_counterexample :
    ((rechart msgsC2 9 "temperature" 0).toOption.map
        (fun r => (r.series.labels, r.series.datasets.map (fun d => d.data))))
      = some ([some (.valid 500), some (.valid 0)], [[.vnum 2, .vnum 2]]) ∧
    (flatOf mC2a).when = some (.valid 0) ∧
    (flatOf mC2a).value = .vnum 1 ∧
    (flatOf mC2b).when = some (.valid 500) ∧
    (flatOf mC2b).value = .vnum 2 ∧
    JDate.valid 500 ≠ JDate.valid 0 :=
  ⟨by decide, by decide, by decide, by decide, by decide, by decide⟩

/-! ### Claim C6 -/

/-- Claim C6 (amended): flattening never raises on the malformed shapes
the claim lists (the flattener is a total function here). A message whose
SensorData mapping is missing or empty gets the empty flat record, whose
undefined topic matches no topic string, so it is dropped by the topic
filter. But a message whose SensorData is non-empty qualifies exactly
when its last topic key lower-cases to the requested topic — a missing
`sensor_id` or an unparsable `constructed_when` does not prevent the
record from qualifying and contributing to the output (with an undefined
sensor id or an Invalid Date timestamp). -/
theorem C6_malformed_amended (m : Msg) (t : String) :
    ((m.payload_SensorData = none ∨ m.payload_SensorData = some []) →
      (simpleflat m).flat = some emptyFlat ∧
      qualB (flatOf (simpleflat m)) t = false) ∧
    (∀ pre k inner, m.payload_SensorData = some (pre ++ [(k, inner)]) →
      (flatOf (simpleflat m)).topic = some (jsToLower k) ∧
      (flatOf (simpleflat m)).when = some (jsParseDate m.constructed_when) ∧
      (qualB (flatOf (simpleflat m)) t = true ↔ jsToLower k = t)) := by
  constructor
  · intro hsd
    rcases hsd with hsd | hsd <;>
      simp [simpleflat, hsd, flatOf, qualB, emptyFlat]
  · intro pre k inner hsd
    have hfl : flatOf (simpleflat m)
        = flatStep (jsParseDate m.constructed_when)
            ((pre.foldl (flatStep (jsParseDate m.constructed_when)) emptyFlat))
            (k, inner) := by
      simp [simpleflat, hsd, flatOf, List.foldl_append]
    rw [hfl]
    refine ⟨rfl, rfl, ?_⟩
    simp [qualB, flatStep]

/-- Claim C6 counterexample: this message has no `sensor_id` field, yet
after flattening its record qualifies for topic "temperature" and the
builder emits a series labeled "Sensor #undefined" with one label — the
record is not excluded and does contribute to the output, contrary to the
claim that the topic filter drops all partial records. -/
theorem C6_counterexample :
    (flatOf (simpleflat mC6)).sensor_id = .undef ∧
    qualB (flatOf (simpleflat mC6)) "temperature" = true ∧
    ((rechart [simpleflat mC6] 5 "temperature" 0).toOption.map
        (fun r => (r.series.datasets.map (fun d => d.label),
                   r.series.labels.length)))
      = some (["Sensor #undefined"], 1) :=
  ⟨by decide, by decide, by decide⟩

/-- Witness for C6: the missing-SensorData message is excluded, while the
missing-sensor_id message keeps its lower-cased topic. -/
theorem C6_witness :
    ((simpleflat mC6e).flat = some emptyFlat ∧
      qualB (flatOf (simpleflat mC6e)) "temperature" = false) ∧
    (flatOf (simpleflat mC6)).topic = some (jsToLower "Temperature") :=
  ⟨(C6_malformed_amended mC6e "temperature").1 (Or.inl (by decide)),
   ((C6_malformed_amended mC6 "temperature").2 [] "Temperature"
     [("temp_c", .vnum 42)] (by decide)).1⟩

/-! ### Claim C9 -/

/-- Claim C9 (amended): within one series-builder call the color cursor
is reset, so the i-th emitted series always receives the i-th palette
color modulo the palette size. Whenever the call emits at most as many
series as the palette has colors (nine), no two series share a color;
with more series the palette cycles and colors repeat. -/
theorem C9_colors_amended (msgs : List Msg) (n : Nat) (t : String)
    (ic : Nat) (h : allFlat msgs) :
    (∀ i, i < (seriesOf msgs n t ic).datasets.length →
      ((seriesOf msgs n t ic).datasets.getD i ⟨"", [], ""⟩).borderColor
        = colors.getD (i % colors.length) "") ∧
    ((seriesOf msgs n t ic).datasets.length ≤ colors.length →
      ∀ i j, i < (seriesOf msgs n t ic).datasets.length →
        j < (seriesOf msgs n t ic).datasets.length → i ≠ j →
        ((seriesOf msgs n t ic).datasets.getD i ⟨"", [], ""⟩).borderColor
          ≠ ((seriesOf msgs n t ic).datasets.getD j ⟨"", [], ""⟩).borderColor) := by
  have hser : seriesOf msgs n t ic
      = ⟨labelsOf msgs n t,
         mkDatasets (fpsOf msgs n t) (labelsOf msgs n t) 0
           (keysOf msgs n t)⟩ := by
    unfold seriesOf
    rw [rechart_ok msgs n t ic h]
    rfl
  have hcolor : ∀ i, i < (seriesOf msgs n t ic).datasets.length →
      ((seriesOf msgs n t ic).datasets.getD i ⟨"", [], ""⟩).borderColor
        = colors.getD (i % colors.length) "" := by
    intro i hi
    rw [hser] at hi ⊢
    have hik : i < (keysOf msgs n t).length := by
      rw [mkDatasets_length] at hi
      exact hi
    rw [mkDatasets_getD _ _ _ _ 0 i hik]
    simp [mkDataset, color]
  refine ⟨hcolor, ?_⟩
  intro hle i j hi hj hij
  rw [hcolor i hi, hcolor j hj]
  have hcl : ∀ a < colors.length, ∀ b < colors.length,
      a ≠ b → colors.getD a "" ≠ colors.getD b "" := by decide
  rw [hser] at hi hj
  rw [mkDatasets_length] at hi hj
  rw [hser, mkDatasets_length] at hle
  have hi9 : i < colors.length := lt_of_lt_of_le hi hle
  have hj9 : j < colors.length := lt_of_lt_of_le hj hle
  rw [Nat.mod_eq_of_lt hi9, Nat.mod_eq_of_lt hj9]
  exact hcl i hi9 j hj9 hij

/-- Claim C9 counterexample: with ten sensors on screen in one call, the
series for sensor 0 and the series for sensor 9 both receive "red" — two
sensor series of the same call share a color, because the palette has
only nine entries and the cursor cycles. -/
theorem C9_counterexample :
    ((rechart msgsC9 20 "temperature" 0).toOption.map
        (fun r => r.series.datasets.map (fun d => (d.label, d.borderColor))))
      = some [("Sensor #0", "red"), ("Sensor #1", "green"),
              ("Sensor #2", "orange"), ("Sensor #3", "blue"),
              ("Sensor #4", "purple"), ("Sensor #5", "cyan"),
              ("Sensor #6", "magenta"), ("Sensor #7", "lime"),
              ("Sensor #8", "darkgreen"), ("Sensor #9", "red")] := by
  decide

/-- Witness for C9: the first series of the ten-sensor call carries the
first palette color. -/
theorem C9_witness :
    ((seriesOf msgsC9 20 "temperature" 0).datasets.getD 0
      ⟨"", [], ""⟩).borderColor = colors.getD (0 % colors.length) "" :=
  (C9_colors_amended msgsC9 20 "temperature" 0 (by decide)).1 0 (by decide)

/-! ### Concrete validation of the date model

These examples pin the modelled `Date` parsing and rendering to the
values the JS runtime produces on the same inputs. -/

example : jsParseDate "1970-01-01T00:00:00Z" = .valid 0 := by decide
example : jsParseDate "1970-01-09T00:00:00Z" = .valid 691200000 := by decide
example : jsParseDate "1970-01-01T00:00:00.500Z" = .valid 500 := by decide
example : jsParseDate "not-a-date" = .invalid := by decide
example : jsParseDate "2026-10-11T10:00:00Z" = .valid 1791712800000 := by rfl
example : jdateToString (.valid 0) =
    "Thu Jan 01 1970 00:00:00 GMT+0000 (Coordinated Universal Time)" := by decide
example : jdateToString (.valid 172800000) =
    "Sat Jan 03 1970 00:00:00 GMT+0000 (Coordinated Universal Time)" := by decide
example : jdateToString (.valid 691200000) =
    "Fri Jan 09 1970 00:00:00 GMT+0000 (Coordinated Universal Time)" := by decide
example : jdateToString (.valid 500) = jdateToString (.valid 0) := by decide
example : strLe "Fri Jan 09 1970" "Sat Jan 03 1970" = true := by decide
example : jsToLower "Temperature" = "temperature" := by decide

end CDP
